import Mathlib

/-!
Shallow embedding of the dithering engine of the `mark` repository
(`src/mark/src/dither.rs`, `src/mark/src/util.rs`, `src/mark/src/bw.rs`,
`src/mark-bin/src/main.rs`), together with proofs about the embedded code.

Modelling conventions:
* A device pixel (`image::Rgba<u8>`) is a record of four natural numbers.
* `image::RgbaImage` is a `Raster`: a width, a height and a total pixel
  function; checked reads of the code go through the same bounds test as
  the `image` crate's `get_pixel_mut_checked`.
* Working colors are modelled through their `[f32; 3]` view (every color
  type the engine composer binds implements `AsMut<[f32; 3]>`), i.e. as
  triples of rationals; `f32` arithmetic is modelled by exact rational
  arithmetic.  The componentwise helpers `add`, `sub`, `mul` of
  `dither.rs` are translated literally.
* Color-space and metric choices are parameters: the conversion pair of a
  space is a `ColorSpaceModel`, a difference metric is a function into a
  linearly ordered type (`f32::total_cmp` is a total order on `f32`,
  including the NaN payloads, so a `LinearOrder` instance models it).
* A Rust panic (the `expect("palette was empty")`, reachable only for an
  empty palette) is modelled by `Option.none`, threaded through the
  per-pixel loops by `optFold`.
-/

namespace Mark

/-- A device pixel: `image::Rgba<u8>` with channels r, g, b, a. -/
structure Rgba where
  r : Nat
  g : Nat
  b : Nat
  a : Nat
deriving DecidableEq

/-- An `image::RgbaImage`: dimensions plus pixel contents. -/
structure Raster where
  width : Nat
  height : Nat
  pix : Nat → Nat → Rgba

/-- Models `RgbaImage::get_pixel_mut_checked`: `some` exactly on in-bounds coordinates. -/
def getPixel (im : Raster) (x y : Nat) : Option Rgba :=
  if x < im.width ∧ y < im.height then some (im.pix x y) else none

/-- Models `util::update_pixel_with_srgb` applied to the pixel at `(x, y)`:
overwrite channels 0, 1, 2 of that pixel, leaving its alpha channel (and
every other pixel) unchanged. -/
def setRgb (im : Raster) (x y : Nat) (v : Nat × Nat × Nat) : Raster :=
  { im with pix := fun i j =>
      if i = x ∧ j = y then
        { im.pix x y with r := v.1, g := v.2.1, b := v.2.2 }
      else im.pix i j }

/-- The `[f32; 3]` view of a working color, one rational per channel. -/
abbrev V3 := ℚ × ℚ × ℚ

/-- Models `dither::add` (componentwise addition on the `[f32; 3]` view). -/
def addV (a b : V3) : V3 := (a.1 + b.1, a.2.1 + b.2.1, a.2.2 + b.2.2)

/-- Models `dither::sub` (componentwise subtraction on the `[f32; 3]` view). -/
def subV (a b : V3) : V3 := (a.1 - b.1, a.2.1 - b.2.1, a.2.2 - b.2.2)

/-- Models `dither::mul` (componentwise scaling of the `[f32; 3]` view). -/
def mulV (a : V3) (f : ℚ) : V3 := (a.1 * f, a.2.1 * f, a.2.2 * f)

/-- Models `color.as_mut()[i] += d` for a channel index `i` in 0, 1, 2
(`AlgoRandom`'s perturbation of one channel). -/
def addChan (a : V3) (i : Nat) (d : ℚ) : V3 :=
  if i = 0 then (a.1 + d, a.2.1, a.2.2)
  else if i = 1 then (a.1, a.2.1 + d, a.2.2)
  else (a.1, a.2.1, a.2.2 + d)

/-- One color space bound by the engine composer: the two conversions used
by `util::pixel_to_color` (device pixel to working color) and
`util::update_pixel_with_color` (working color to device r, g, b). -/
structure ColorSpaceModel where
  fromRgb : Nat → Nat → Nat → V3
  toRgb : V3 → Nat × Nat × Nat

/-- Models `dither::Palette`. -/
structure Palette (C : Type) where
  colors : List C

/-- One step of `Iterator::min_by`'s left fold (`core::cmp::min_by`): keep
the accumulator unless the new element's key is strictly smaller. -/
def minStep {α F : Type} [LinearOrder F] (acc p : α × F) : α × F :=
  if p.2 < acc.2 then p else acc

/-- Models `Iterator::min_by` over (element, key) pairs: `none` on the empty list,
otherwise the fold of `minStep` started at the first element, which yields
the first element attaining the minimal key. -/
def minByFold {α F : Type} [LinearOrder F] : List (α × F) → Option (α × F)
  | [] => none
  | x :: xs => some (xs.foldl minStep x)

/-- Models `Palette::nearest::<D>`: pair each entry with its distance to the
target, take `min_by` under `f32::total_cmp`'s total order, project the
entry.  `none` models the `expect("palette was empty")` panic. -/
def Palette.nearest {C F : Type} [LinearOrder F] (diff : C → C → F)
    (pal : Palette C) (target : C) : Option C :=
  Option.map Prod.fst (minByFold (pal.colors.map fun c => (c, diff c target)))

/-- A `for` loop whose body may hit the empty-palette panic: `none` aborts
the whole loop, otherwise the accumulator is threaded left to right. -/
def optFold {α β : Type} (f : β → α → Option β) : β → List α → Option β
  | b, [] => some b
  | b, a :: l =>
    match f b a with
    | none => none
    | some b2 => optFold f b2 l

/-- Per-pixel body of `AlgoThreshold::run`. -/
def thStep {F : Type} [LinearOrder F] (cs : ColorSpaceModel) (diff : V3 → V3 → F)
    (pal : Palette V3) (im : Raster) (x y : Nat) : Option Raster :=
  let p := im.pix x y
  let color := cs.fromRgb p.r p.g p.b
  match Palette.nearest diff pal color with
  | none => none
  | some c => some (setRgb im x y (cs.toRgb c))

/-- Models `AlgoThreshold::run`: every pixel, in raster order (the buffer of
`pixels_mut` is row-major), replaced by its nearest palette color. -/
def runThreshold {F : Type} [LinearOrder F] (cs : ColorSpaceModel) (diff : V3 → V3 → F)
    (pal : Palette V3) (img : Raster) : Option Raster :=
  optFold (fun im y => optFold (fun im2 x => thStep cs diff pal im2 x y) im (List.range im.width))
    img (List.range img.height)

/-- The generator used by `AlgoRandom`: `SmallRng::seed_from_u64` plus one
`rng.random_range(-1.0..=1.0)` step, which returns a value and advances the
generator state. -/
structure RngModel (S : Type) where
  seedFrom : Nat → S
  draw : S → ℚ × S

/-- Per-pixel body of `AlgoRandom::run`: three successive draws perturb
channels 0, 1 and 2 of the working color before the nearest lookup. -/
def randStep {F S : Type} [LinearOrder F] (cs : ColorSpaceModel) (diff : V3 → V3 → F)
    (pal : Palette V3) (draw : S → ℚ × S) (st : Raster × S) (x y : Nat) :
    Option (Raster × S) :=
  let p := st.1.pix x y
  let c0 := cs.fromRgb p.r p.g p.b
  let d1 := draw st.2
  let c1 := addChan c0 0 d1.1
  let d2 := draw d1.2
  let c2 := addChan c1 1 d2.1
  let d3 := draw d2.2
  let c3 := addChan c2 2 d3.1
  match Palette.nearest diff pal c3 with
  | none => none
  | some c => some (setRgb st.1 x y (cs.toRgb c), d3.2)

/-- Models `AlgoRandom::run`: seed the generator with the constant 0, then process
every pixel in raster order, drawing three offsets per pixel. -/
def runRandom {F S : Type} [LinearOrder F] (cs : ColorSpaceModel) (diff : V3 → V3 → F)
    (pal : Palette V3) (rng : RngModel S) (img : Raster) : Option Raster :=
  Option.map Prod.fst
    (optFold
      (fun st y => optFold (fun st2 x => randStep cs diff pal rng.draw st2 x y) st
        (List.range st.1.width))
      (img, rng.seedFrom 0) (List.range img.height))

/-- The value of `(x as i32 + d) as u32` for `x : u32`: two's-complement
wrap-around, i.e. the representative of `x + d` modulo `2^32` (written as
the literal `4294967296`). -/
def u32cast (v : Int) : Nat := (v % 4294967296).toNat

/-- Models `dither::diffuse_error`: reject a negative offset from column zero or
row zero before any index arithmetic, then look the cast target coordinates
up with the bounds-checked pixel access; on success convert the neighbor's
current device value to the working space, add the scaled error, and write
it back as a device pixel. -/
def diffuseError (cs : ColorSpaceModel) (im : Raster) (error : V3)
    (x y : Nat) (dx dy : Int) (factor : ℚ) : Raster :=
  if x = 0 ∧ dx < 0 then im
  else if y = 0 ∧ dy < 0 then im
  else
    let nx := u32cast (x + dx)
    let ny := u32cast (y + dy)
    match getPixel im nx ny with
    | none => im
    | some p =>
      let color := cs.fromRgb p.r p.g p.b
      let color := addV color (mulV error factor)
      setRgb im nx ny (cs.toRgb color)

/-- Per-pixel body of `AlgoFloydSteinberg::run`: quantize, write the
chosen color, then diffuse the error to the four forward neighbors. -/
def fsStep {F : Type} [LinearOrder F] (cs : ColorSpaceModel) (diff : V3 → V3 → F)
    (pal : Palette V3) (im : Raster) (x y : Nat) : Option Raster :=
  let p := im.pix x y
  let before := cs.fromRgb p.r p.g p.b
  match Palette.nearest diff pal before with
  | none => none
  | some after =>
    let error := subV before after
    let im1 := setRgb im x y (cs.toRgb after)
    let im2 := diffuseError cs im1 error x y 1 0 (7 / 16)
    let im3 := diffuseError cs im2 error x y (-1) 1 (3 / 16)
    let im4 := diffuseError cs im3 error x y 0 1 (5 / 16)
    some (diffuseError cs im4 error x y 1 1 (1 / 16))

/-- Models `AlgoFloydSteinberg::run`: raster order, top to bottom then left to
right. -/
def runFS {F : Type} [LinearOrder F] (cs : ColorSpaceModel) (diff : V3 → V3 → F)
    (pal : Palette V3) (img : Raster) : Option Raster :=
  optFold (fun im y => optFold (fun im2 x => fsStep cs diff pal im2 x y) im (List.range im.width))
    img (List.range img.height)

/-- Per-pixel body of `AlgoStucki::run`: quantize, write, then diffuse the
error over the 12-tap kernel with denominator 42. -/
def stStep {F : Type} [LinearOrder F] (cs : ColorSpaceModel) (diff : V3 → V3 → F)
    (pal : Palette V3) (im : Raster) (x y : Nat) : Option Raster :=
  let p := im.pix x y
  let before := cs.fromRgb p.r p.g p.b
  match Palette.nearest diff pal before with
  | none => none
  | some after =>
    let error := subV before after
    let im1 := setRgb im x y (cs.toRgb after)
    let im2 := diffuseError cs im1 error x y 1 0 (8 / 42)
    let im3 := diffuseError cs im2 error x y 2 0 (4 / 42)
    let im4 := diffuseError cs im3 error x y (-2) 1 (2 / 42)
    let im5 := diffuseError cs im4 error x y (-1) 1 (4 / 42)
    let im6 := diffuseError cs im5 error x y 0 1 (8 / 42)
    let im7 := diffuseError cs im6 error x y 1 1 (4 / 42)
    let im8 := diffuseError cs im7 error x y 2 1 (2 / 42)
    let im9 := diffuseError cs im8 error x y (-2) 2 (1 / 42)
    let im10 := diffuseError cs im9 error x y (-1) 2 (2 / 42)
    let im11 := diffuseError cs im10 error x y 0 2 (4 / 42)
    let im12 := diffuseError cs im11 error x y 1 2 (2 / 42)
    some (diffuseError cs im12 error x y 2 2 (1 / 42))

/-- Models `AlgoStucki::run`: raster order, top to bottom then left to right. -/
def runStucki {F : Type} [LinearOrder F] (cs : ColorSpaceModel) (diff : V3 → V3 → F)
    (pal : Palette V3) (img : Raster) : Option Raster :=
  optFold (fun im y => optFold (fun im2 x => stStep cs diff pal im2 x y) im (List.range im.width))
    img (List.range img.height)

/-!
Spec-level descriptions.  The following definitions are written from the
wording of the specification (not from the source), to be compared with
the code-level definitions above in the refinement claims.
-/

/-- Spec-level error distribution, following the specification's words: a
neighbor with negative column reached from column 0 by a negative
horizontal offset is dropped, symmetrically for row 0; any other neighbor
outside the raster (left of column 0, beyond the right or bottom edge)
fails the bounds-checked lookup and the error share is discarded;
otherwise the neighbor's current device value is converted to the working
space, the scaled error is added, and the result is immediately written
back as a device pixel. -/
def diffuseSpec (cs : ColorSpaceModel) (im : Raster) (error : V3)
    (x y : Nat) (dx dy : Int) (factor : ℚ) : Raster :=
  if x = 0 ∧ dx < 0 then im
  else if y = 0 ∧ dy < 0 then im
  else
    let nx : Int := x + dx
    let ny : Int := y + dy
    if 0 ≤ nx ∧ nx < im.width ∧ 0 ≤ ny ∧ ny < im.height then
      let p := im.pix nx.toNat ny.toNat
      let color := cs.fromRgb p.r p.g p.b
      let color := addV color (mulV error factor)
      setRgb im nx.toNat ny.toNat (cs.toRgb color)
    else im

/-- Spec-level Floyd-Steinberg pixel step: compute
`after = palette.nearest(before)` and `error = before - after`, write
`after` to the current pixel, then distribute `error` to the four forward
neighbors `(+1,0)`, `(-1,+1)`, `(0,+1)`, `(+1,+1)` with the weights
`7/16`, `3/16`, `5/16`, `1/16`. -/
def fsSpecStep {F : Type} [LinearOrder F] (cs : ColorSpaceModel) (diff : V3 → V3 → F)
    (pal : Palette V3) (im : Raster) (x y : Nat) : Option Raster :=
  let p := im.pix x y
  let before := cs.fromRgb p.r p.g p.b
  match Palette.nearest diff pal before with
  | none => none
  | some after =>
    let error := subV before after
    let im1 := setRgb im x y (cs.toRgb after)
    let im2 := diffuseSpec cs im1 error x y 1 0 (7 / 16)
    let im3 := diffuseSpec cs im2 error x y (-1) 1 (3 / 16)
    let im4 := diffuseSpec cs im3 error x y 0 1 (5 / 16)
    some (diffuseSpec cs im4 error x y 1 1 (1 / 16))

/-- Spec-level Floyd-Steinberg: the spec pixel step applied in raster
order (top to bottom, left to right). -/
def runFSSpec {F : Type} [LinearOrder F] (cs : ColorSpaceModel) (diff : V3 → V3 → F)
    (pal : Palette V3) (img : Raster) : Option Raster :=
  optFold
    (fun im y => optFold (fun im2 x => fsSpecStep cs diff pal im2 x y) im (List.range im.width))
    img (List.range img.height)

/-- The generator state after `n` advances from state `s`. -/
def rngAdvance {S : Type} (draw : S → ℚ × S) (s : S) (n : Nat) : S :=
  (fun t => (draw t).2)^[n] s

/-- The value produced by the `n`-th advance of the generator (counting
from 0) when started in state `s`. -/
def nthOffset {S : Type} (draw : S → ℚ × S) (s : S) (n : Nat) : ℚ :=
  (draw (rngAdvance draw s n)).1

/-- Spec-level Random pixel step: the pixel with raster-order index `k`
perturbs its three working-space channels by the offsets drawn at
positions `3k`, `3k + 1` and `3k + 2` of the generator's output stream,
then replaces the pixel by the nearest palette color. -/
def randSpecStep {F S : Type} [LinearOrder F] (cs : ColorSpaceModel) (diff : V3 → V3 → F)
    (pal : Palette V3) (draw : S → ℚ × S) (s0 : S) (st : Raster × Nat) (x y : Nat) :
    Option (Raster × Nat) :=
  let k := st.2
  let p := st.1.pix x y
  let c0 := cs.fromRgb p.r p.g p.b
  let c1 := addChan c0 0 (nthOffset draw s0 (3 * k))
  let c2 := addChan c1 1 (nthOffset draw s0 (3 * k + 1))
  let c3 := addChan c2 2 (nthOffset draw s0 (3 * k + 2))
  match Palette.nearest diff pal c3 with
  | none => none
  | some c => some (setRgb st.1 x y (cs.toRgb c), k + 1)

/-- Spec-level Random algorithm: a single generator is seeded with the
fixed constant 0 at the start of the run and advanced exactly once per
pixel per channel in raster order; pixel `k` (raster order) consumes the
offsets `3k`, `3k + 1`, `3k + 2` of the resulting stream. -/
def runRandomSpec {F S : Type} [LinearOrder F] (cs : ColorSpaceModel) (diff : V3 → V3 → F)
    (pal : Palette V3) (rng : RngModel S) (img : Raster) : Option Raster :=
  Option.map Prod.fst
    (optFold
      (fun st y => optFold
        (fun st2 x => randSpecStep cs diff pal rng.draw (rng.seedFrom 0) st2 x y) st
        (List.range st.1.width))
      (img, 0) (List.range img.height))

/-!
The black-and-white transform of `bw.rs` (the `Cielab` and `Oklab`
methods, which the claims are about).
-/

/-- A color in a Lab-type space: lightness `l` and chroma channels `a`, `b`. -/
structure LabV where
  l : ℚ
  a : ℚ
  b : ℚ
deriving DecidableEq

/-- The conversions `palette` provides between `Srgb` and the two Lab-type
spaces used by `bw::Method::to_bw`. -/
structure LabConvModel where
  srgbToLab : V3 → LabV
  labToSrgb : LabV → V3
  srgbToOklab : V3 → LabV
  oklabToSrgb : LabV → V3

/-- The CIE Lab value `bw::Method::to_bw` writes back in its `Cielab`
branch: the converted pixel with `pixel.a = 0.5` and `pixel.b = 0.5`. -/
def cieBwLab (cv : LabConvModel) (p : V3) : LabV :=
  { cv.srgbToLab p with a := 1 / 2, b := 1 / 2 }

/-- Models `bw::Method::to_bw` for `Method::Cielab`. -/
def toBwCie (cv : LabConvModel) (p : V3) : V3 :=
  cv.labToSrgb (cieBwLab cv p)

/-- The Oklab value `bw::Method::to_bw` writes back in its `Oklab`
branch: the converted pixel with `pixel.a = 0.0` and `pixel.b = 0.0`. -/
def oklabBwLab (cv : LabConvModel) (p : V3) : LabV :=
  { cv.srgbToOklab p with a := 0, b := 0 }

/-- Models `bw::Method::to_bw` for `Method::Oklab`. -/
def toBwOklab (cv : LabConvModel) (p : V3) : V3 :=
  cv.oklabToSrgb (oklabBwLab cv p)

/-!
The palette-color parser of `mark-bin/src/main.rs`
(`impl FromStr for SrgbColor`).
-/

/-- Models `char::is_ascii_hexdigit`: code points of `0`-`9`, `a`-`f`, `A`-`F`. -/
def isHexDigitChar (c : Char) : Bool :=
  decide ((48 ≤ c.toNat ∧ c.toNat ≤ 57) ∨ (97 ≤ c.toNat ∧ c.toNat ≤ 102) ∨
    (65 ≤ c.toNat ∧ c.toNat ≤ 70))

/-- The numeric value of an ASCII hexadecimal digit
(`u8::from_str_radix` with radix 16, one digit). -/
def hexVal (c : Char) : Nat :=
  if 48 ≤ c.toNat ∧ c.toNat ≤ 57 then c.toNat - 48
  else if 97 ≤ c.toNat ∧ c.toNat ≤ 102 then c.toNat - 97 + 10
  else c.toNat - 65 + 10

/-- The number of bytes of the UTF-8 encoding of a character
(`str::len` counts bytes). -/
def utf8Len (c : Char) : Nat :=
  if c.toNat < 0x80 then 1
  else if c.toNat < 0x800 then 2
  else if c.toNat < 0x10000 then 3
  else 4

/-- Models `str::len` of a string given as its list of characters. -/
def strByteLen (s : List Char) : Nat := (s.map utf8Len).sum

/-- Models `ParseSrgbColorError`.  (After the all-hexdigit check the
`u8::from_str_radix` calls cannot fail, so the `ParseIntError` variant is
unreachable.) -/
inductive ParseSrgbColorError where
  | mustBeSixHexDigits
  | parseIntCase
deriving DecidableEq

/-- Models `<SrgbColor as FromStr>::from_str`: reject unless the byte length is
exactly 6 and every character is an ASCII hexadecimal digit, then read the
three consecutive two-digit pairs in base 16.  (Six bytes of ASCII
hexadecimal digits are exactly six characters, so the final match arm is
unreachable.) -/
def fromStrSrgbColor (s : List Char) : Except ParseSrgbColorError (Nat × Nat × Nat) :=
  if strByteLen s ≠ 6 then .error .mustBeSixHexDigits
  else if ¬ (s.all isHexDigitChar) then .error .mustBeSixHexDigits
  else
    match s with
    | [c1, c2, c3, c4, c5, c6] =>
      .ok (16 * hexVal c1 + hexVal c2, 16 * hexVal c3 + hexVal c4, 16 * hexVal c5 + hexVal c6)
    | _ => .error .mustBeSixHexDigits

/-!
A concrete instantiation of the parameters (the standard-RGB space with
exact rational arithmetic in place of `f32`, and the Manhattan metric),
used by the witnesses and the counterexample.
-/

/-- The saturating float-to-byte conversion of the final
`Srgb::into_format::<u8>()` step: scale to 0..255, round, clamp. -/
def qToByte (q : ℚ) : Nat := (min 255 (max 0 ⌊255 * q + 1 / 2⌋)).toNat

/-- The standard-RGB working space with rational arithmetic:
`u8` channels map to `channel / 255`, and back by `qToByte`. -/
def srgbSpace : ColorSpaceModel where
  fromRgb := fun r g b => ((r : ℚ) / 255, (g : ℚ) / 255, (b : ℚ) / 255)
  toRgb := fun c => (qToByte c.1, qToByte c.2.1, qToByte c.2.2)

/-- Models `f32::abs`, written so that the kernel can evaluate it on rationals. -/
def qabs (q : ℚ) : ℚ := if q < 0 then -q else q

/-- Models `DiffManhattan` on the rational `[f32; 3]` view. -/
def manhattanQ (a b : V3) : ℚ :=
  qabs (a.1 - b.1) + qabs (a.2.1 - b.2.1) + qabs (a.2.2 - b.2.2)

/-! Generic lemmas about `optFold`. -/

theorem optFold_cons {α β : Type} (f : β → α → Option β) (b : β) (a : α) (l : List α) :
    optFold f b (a :: l) =
      match f b a with
      | none => none
      | some b2 => optFold f b2 l := rfl

theorem optFold_congr {α β : Type} (P : β → Prop) (f g : β → α → Option β) :
    ∀ (l : List α) (b : β),
      (∀ c a, P c → a ∈ l → f c a = g c a) →
      (∀ c a c2, P c → a ∈ l → f c a = some c2 → P c2) →
      P b → optFold f b l = optFold g b l := by
  intro l
  induction l with
  | nil => intros; rfl
  | cons a t ih =>
    intro b hfg hP hb
    rw [optFold_cons, optFold_cons, hfg b a hb (List.mem_cons_self a t)]
    cases hga : g b a with
    | none => rfl
    | some b2 =>
      have hfa : f b a = some b2 := by
        rw [hfg b a hb (List.mem_cons_self a t)]; exact hga
      exact ih b2
        (fun c a2 hc ha2 => hfg c a2 hc (List.mem_cons_of_mem _ ha2))
        (fun c a2 c2 hc ha2 hs => hP c a2 c2 hc (List.mem_cons_of_mem _ ha2) hs)
        (hP b a b2 hb (List.mem_cons_self a t) hfa)

theorem optFold_pres {α β : Type} (P : β → Prop) (f : β → α → Option β) :
    ∀ (l : List α) (b b2 : β),
      (∀ c a c2, P c → a ∈ l → f c a = some c2 → P c2) →
      P b → optFold f b l = some b2 → P b2 := by
  intro l
  induction l with
  | nil =>
    intro b b2 _ hb h
    cases h
    exact hb
  | cons a t ih =>
    intro b b2 hP hb h
    rw [optFold_cons] at h
    cases hfa : f b a with
    | none => rw [hfa] at h; cases h
    | some c =>
      rw [hfa] at h
      exact ih c b2
        (fun c1 a2 c2 hc ha2 hs => hP c1 a2 c2 hc (List.mem_cons_of_mem _ ha2) hs)
        (hP b a c hb (List.mem_cons_self a t) hfa) h

theorem optFold_some {α β : Type} (P : β → Prop) (f : β → α → Option β) :
    ∀ (l : List α) (b : β),
      (∀ c a, P c → a ∈ l → ∃ c2, f c a = some c2 ∧ P c2) →
      P b → ∃ b2, optFold f b l = some b2 ∧ P b2 := by
  intro l
  induction l with
  | nil => intro b _ hb; exact ⟨b, rfl, hb⟩
  | cons a t ih =>
    intro b hf hb
    obtain ⟨c, hfa, hc⟩ := hf b a hb (List.mem_cons_self a t)
    obtain ⟨b2, hfold, hb2⟩ := ih c
      (fun c1 a2 hc1 ha2 => hf c1 a2 hc1 (List.mem_cons_of_mem _ ha2)) hc
    exact ⟨b2, by rw [optFold_cons, hfa]; exact hfold, hb2⟩

theorem optFold_map_rel {α β γ : Type} (h : γ → β) (f : β → α → Option β)
    (g : γ → α → Option γ) :
    ∀ (l : List α),
      (∀ c a, a ∈ l → f (h c) a = (g c a).map h) →
      ∀ c, optFold f (h c) l = (optFold g c l).map h := by
  intro l
  induction l with
  | nil => intros; rfl
  | cons a t ih =>
    intro hstep c
    rw [optFold_cons, optFold_cons, hstep c a (List.mem_cons_self a t)]
    cases hga : g c a with
    | none => rfl
    | some c2 => exact ih (fun c1 a2 ha2 => hstep c1 a2 (List.mem_cons_of_mem _ ha2)) c2

/-! Dimension preservation. -/

theorem setRgb_width (im : Raster) (x y : Nat) (v : Nat × Nat × Nat) :
    (setRgb im x y v).width = im.width := rfl

theorem setRgb_height (im : Raster) (x y : Nat) (v : Nat × Nat × Nat) :
    (setRgb im x y v).height = im.height := rfl

theorem diffuseError_width (cs : ColorSpaceModel) (im : Raster) (e : V3)
    (x y : Nat) (dx dy : Int) (f : ℚ) :
    (diffuseError cs im e x y dx dy f).width = im.width := by
  rw [diffuseError]
  split
  · rfl
  split
  · rfl
  dsimp only
  split <;> rfl

theorem diffuseError_height (cs : ColorSpaceModel) (im : Raster) (e : V3)
    (x y : Nat) (dx dy : Int) (f : ℚ) :
    (diffuseError cs im e x y dx dy f).height = im.height := by
  rw [diffuseError]
  split
  · rfl
  split
  · rfl
  dsimp only
  split <;> rfl

theorem diffuseSpec_width (cs : ColorSpaceModel) (im : Raster) (e : V3)
    (x y : Nat) (dx dy : Int) (f : ℚ) :
    (diffuseSpec cs im e x y dx dy f).width = im.width := by
  rw [diffuseSpec]
  split
  · rfl
  split
  · rfl
  dsimp only
  split <;> rfl

theorem diffuseSpec_height (cs : ColorSpaceModel) (im : Raster) (e : V3)
    (x y : Nat) (dx dy : Int) (f : ℚ) :
    (diffuseSpec cs im e x y dx dy f).height = im.height := by
  rw [diffuseSpec]
  split
  · rfl
  split
  · rfl
  dsimp only
  split <;> rfl

/-! Small list-index helpers. -/

theorem getElem?_append_len {α : Type} :
    ∀ (l1 : List α) (a : α) (l2 : List α), (l1 ++ a :: l2)[l1.length]? = some a := by
  intro l1 a l2
  induction l1 with
  | nil => simp
  | cons x t ih => simpa using ih

theorem getElem?_append_lt {α : Type} :
    ∀ (l1 l2 : List α) (j : Nat), j < l1.length → (l1 ++ l2)[j]? = l1[j]? := by
  intro l1
  induction l1 with
  | nil => intro l2 j h; cases h
  | cons x t ih =>
    intro l2 j h
    cases j with
    | zero => simp
    | succ j =>
      simp only [List.cons_append, List.getElem?_cons_succ]
      exact ih l2 j (Nat.lt_of_succ_lt_succ h)

theorem mem_of_getElem? {α : Type} :
    ∀ (l : List α) (j : Nat) (a : α), l[j]? = some a → a ∈ l := by
  intro l
  induction l with
  | nil =>
    intro j a h
    rw [List.getElem?_nil] at h
    exact Option.noConfusion h
  | cons x t ih =>
    intro j a h
    cases j with
    | zero =>
      simp only [List.getElem?_cons_zero, Option.some.injEq] at h
      rw [← h]
      exact List.mem_cons_self x t
    | succ j =>
      rw [List.getElem?_cons_succ] at h
      exact List.mem_cons_of_mem _ (ih j a h)

theorem getElem?_of_mem {α : Type} {a : α} :
    ∀ (l : List α), a ∈ l → ∃ j : Nat, l[j]? = some a := by
  intro l
  induction l with
  | nil => intro h; cases h
  | cons x t ih =>
    intro h
    rcases List.mem_cons.1 h with h | h
    · exact ⟨0, by simp [h]⟩
    · obtain ⟨j, hj⟩ := ih h
      exact ⟨j + 1, by rw [List.getElem?_cons_succ]; exact hj⟩

theorem getElem?_map_eq {α β : Type} (f : α → β) :
    ∀ (l : List α) (n : Nat), (l.map f)[n]? = (l[n]?).map f := by
  intro l
  induction l with
  | nil => intro n; simp
  | cons x t ih =>
    intro n
    cases n with
    | zero => simp
    | succ n =>
      rw [List.map_cons, List.getElem?_cons_succ, List.getElem?_cons_succ]
      exact ih n

/-! The first-minimum characterization of `Iterator::min_by`. -/

theorem foldl_minStep_split {α F : Type} [LinearOrder F] :
    ∀ (xs : List (α × F)) (x : α × F),
      ∃ l1 l2, x :: xs = l1 ++ (xs.foldl minStep x) :: l2 ∧
        (∀ p ∈ l1, (xs.foldl minStep x).2 < p.2) ∧
        (∀ p ∈ x :: xs, (xs.foldl minStep x).2 ≤ p.2) := by
  intro xs
  induction xs with
  | nil =>
    intro x
    refine ⟨[], [], rfl, by simp, ?_⟩
    intro p hp
    rcases List.mem_cons.1 hp with h | h
    · rw [h]; exact le_rfl
    · cases h
  | cons y ys ih =>
    intro x
    rw [List.foldl_cons]
    by_cases hxy : y.2 < x.2
    · have hstep : minStep x y = y := if_pos hxy
      rw [hstep]
      obtain ⟨l1, l2, heq, hlt, hle⟩ := ih y
      have hry : (ys.foldl minStep y).2 ≤ y.2 := hle y (List.mem_cons_self y ys)
      refine ⟨x :: l1, l2, by rw [List.cons_append, ← heq], ?_, ?_⟩
      · intro p hp
        rcases List.mem_cons.1 hp with h | h
        · rw [h]; exact lt_of_le_of_lt hry hxy
        · exact hlt p h
      · intro p hp
        rcases List.mem_cons.1 hp with h | h
        · rw [h]; exact le_of_lt (lt_of_le_of_lt hry hxy)
        · exact hle p h
    · have hstep : minStep x y = x := if_neg hxy
      rw [hstep]
      have hxley : x.2 ≤ y.2 := le_of_not_lt hxy
      obtain ⟨l1, l2, heq, hlt, hle⟩ := ih x
      cases l1 with
      | nil =>
        rw [List.nil_append] at heq
        have hr : x = ys.foldl minStep x := (List.cons_eq_cons.1 heq).1
        refine ⟨[], y :: ys, by rw [List.nil_append, ← hr], by simp, ?_⟩
        intro p hp
        rcases List.mem_cons.1 hp with h | h
        · rw [h]; exact hle x (List.mem_cons_self x ys)
        rcases List.mem_cons.1 h with h2 | h2
        · rw [h2, ← hr]; exact hxley
        · exact hle p (List.mem_cons_of_mem _ h2)
      | cons hd t =>
        rw [List.cons_append] at heq
        have hinj := List.cons_eq_cons.1 heq
        have hhd : hd = x := hinj.1.symm
        have hys : ys = t ++ (ys.foldl minStep x) :: l2 := hinj.2
        have hrx : (ys.foldl minStep x).2 < x.2 := by
          have h := hlt hd (List.mem_cons_self hd t)
          rwa [hhd] at h
        refine ⟨x :: y :: t, l2, ?_, ?_, ?_⟩
        · rw [List.cons_append, List.cons_append, ← hys]
        · intro p hp
          rcases List.mem_cons.1 hp with h | h
          · rw [h]; exact hrx
          rcases List.mem_cons.1 h with h2 | h2
          · rw [h2]; exact lt_of_lt_of_le hrx hxley
          · have : p ∈ hd :: t := List.mem_cons_of_mem _ h2
            exact hlt p this
        · intro p hp
          rcases List.mem_cons.1 hp with h | h
          · rw [h]; exact hle x (List.mem_cons_self x ys)
          rcases List.mem_cons.1 h with h2 | h2
          · rw [h2]; exact le_of_lt (lt_of_lt_of_le hrx hxley)
          · exact hle p (List.mem_cons_of_mem _ h2)

/-- Lemma: `minByFold` on a non-empty list returns the first element attaining
the minimal key: the list splits as `l1 ++ r :: l2` with every key in
`l1` strictly greater and every key in the list at least `r`'s. -/
theorem minByFold_split {α F : Type} [LinearOrder F] (l : List (α × F)) (hne : l ≠ []) :
    ∃ l1 r l2, minByFold l = some r ∧ l = l1 ++ r :: l2 ∧
      (∀ p ∈ l1, r.2 < p.2) ∧ (∀ p ∈ l, r.2 ≤ p.2) := by
  cases l with
  | nil => exact absurd rfl hne
  | cons x xs =>
    obtain ⟨l1, l2, heq, hlt, hle⟩ := foldl_minStep_split xs x
    exact ⟨l1, xs.foldl minStep x, l2, rfl, heq, hlt, hle⟩

/-- Lemma: `Palette::nearest` hits the panic path exactly on the empty palette. -/
theorem nearest_none_iff {C F : Type} [LinearOrder F] (diff : C → C → F)
    (pal : Palette C) (target : C) :
    Palette.nearest diff pal target = none ↔ pal.colors = [] := by
  rcases h : pal.colors with _ | ⟨c, cs⟩
  · simp [Palette.nearest, h, minByFold]
  · simp [Palette.nearest, h, minByFold]

/-- On a non-empty palette, `Palette::nearest` returns the entry at some
index `i` whose distance is minimal, every entry at an index below `i`
having strictly greater distance (first minimum in scan order). -/
theorem nearest_spec {C F : Type} [LinearOrder F] (diff : C → C → F) (pal : Palette C)
    (target : C) (hne : pal.colors ≠ []) :
    ∃ (i : Nat) (c : C), pal.colors[i]? = some c ∧
      Palette.nearest diff pal target = some c ∧
      (∀ (j : Nat) (cj : C), pal.colors[j]? = some cj → diff c target ≤ diff cj target) ∧
      (∀ (j : Nat) (cj : C), j < i → pal.colors[j]? = some cj →
        diff c target < diff cj target) := by
  have hmapne : pal.colors.map (fun c => (c, diff c target)) ≠ [] := by
    intro h
    exact hne (List.map_eq_nil_iff.1 h)
  obtain ⟨l1, r, l2, hmin, heq, hlt, hle⟩ := minByFold_split _ hmapne
  have hr2 : r.2 = diff r.1 target := by
    have hrmem : r ∈ pal.colors.map (fun c => (c, diff c target)) := by
      rw [heq]
      exact List.mem_append_right _ (List.mem_cons_self _ _)
    obtain ⟨c0, _, hc0⟩ := List.mem_map.1 hrmem
    rw [← hc0]
  refine ⟨l1.length, r.1, ?_, ?_, ?_, ?_⟩
  · have hidx : (pal.colors.map (fun c => (c, diff c target)))[l1.length]? = some r := by
      rw [heq]
      exact getElem?_append_len l1 r l2
    rw [getElem?_map_eq] at hidx
    cases hcl : pal.colors[l1.length]? with
    | none => rw [hcl] at hidx; exact Option.noConfusion hidx
    | some c =>
      rw [hcl, Option.map_some'] at hidx
      exact congrArg some (congrArg Prod.fst (Option.some.inj hidx))
  · rw [Palette.nearest, hmin]
    rfl
  · intro j cj hj
    have hmapj : (pal.colors.map (fun c => (c, diff c target)))[j]? = some (cj, diff cj target) := by
      rw [getElem?_map_eq, hj]
      rfl
    have hmem := mem_of_getElem? _ j _ hmapj
    have := hle _ hmem
    rw [hr2] at this
    exact this
  · intro j cj hjlt hj
    have hmapj : (pal.colors.map (fun c => (c, diff c target)))[j]? = some (cj, diff cj target) := by
      rw [getElem?_map_eq, hj]
      rfl
    have hl1j : l1[j]? = some (cj, diff cj target) := by
      rw [← getElem?_append_lt l1 (r :: l2) j hjlt, ← heq]
      exact hmapj
    have hmem := mem_of_getElem? _ j _ hl1j
    have := hlt _ hmem
    rw [hr2] at this
    exact this

/-- On a non-empty palette `Palette::nearest` always returns an element of
the palette, whatever values (NaN included) the metric produced. -/
theorem nearest_some_of_ne_nil {C F : Type} [LinearOrder F] (diff : C → C → F)
    (pal : Palette C) (target : C) (hne : pal.colors ≠ []) :
    ∃ c, Palette.nearest diff pal target = some c ∧ c ∈ pal.colors := by
  obtain ⟨i, c, hi, hnear, _, _⟩ := nearest_spec diff pal target hne
  exact ⟨c, hnear, mem_of_getElem? _ i c hi⟩

/-- Claim C3: for every non-empty palette, metric and target,
`Palette::nearest` returns the entry with minimum metric distance, and on
ties the earliest-inserted entry wins (first minimum in scan order); in
particular, if the target equals a palette entry and every other entry is
strictly farther, that entry is returned. -/
theorem c3_nearest_first_minimum {C F : Type} [LinearOrder F] (diff : C → C → F)
    (pal : Palette C) (target : C) (hne : pal.colors ≠ []) :
    ∃ (i : Nat) (c : C), pal.colors[i]? = some c ∧
      Palette.nearest diff pal target = some c ∧
      (∀ (j : Nat) (cj : C), pal.colors[j]? = some cj → diff c target ≤ diff cj target) ∧
      (∀ (j : Nat) (cj : C), j < i → pal.colors[j]? = some cj →
        diff c target < diff cj target) ∧
      (target ∈ pal.colors →
        (∀ c2 ∈ pal.colors, c2 ≠ target → diff target target < diff c2 target) →
        c = target) := by
  obtain ⟨i, c, hi, hnear, hmin, hfirst⟩ := nearest_spec diff pal target hne
  refine ⟨i, c, hi, hnear, hmin, hfirst, ?_⟩
  intro hmem huniq
  by_contra hct
  have hltc := huniq c (mem_of_getElem? _ i c hi) hct
  obtain ⟨j, hj⟩ := getElem?_of_mem _ hmem
  exact absurd (hmin j target hj) (not_le.2 hltc)

/-- Witness for C3: palette `[2, 7, 7]` (squared-difference metric on
integer keys), target `7`: the entry `7` is returned. -/
theorem c3_witness :
    Palette.nearest (fun a b : ℤ => (a - b) * (a - b)) ⟨[(2 : ℤ), 7, 7]⟩ 7 = some 7 := by
  obtain ⟨i, c, hi, hnear, hmin, hfirst, hexact⟩ :=
    c3_nearest_first_minimum (fun a b : ℤ => (a - b) * (a - b)) ⟨[(2 : ℤ), 7, 7]⟩ 7 (by decide)
  have hc : c = 7 := hexact (by decide) (by decide)
  rw [hc] at hnear
  exact hnear

/-- Claim C4: a nearest-neighbor query fails fatally (the
`expect("palette was empty")` panic, modelled by `none`) exactly on the
empty palette; every query on a non-empty palette avoids that path. -/
theorem c4_nearest_empty_fatal {C F : Type} [LinearOrder F] (diff : C → C → F)
    (pal : Palette C) (target : C) :
    Palette.nearest diff pal target = none ↔ pal.colors = [] :=
  nearest_none_iff diff pal target

/-- Claim C10: for every non-empty palette and any metric into a type
carrying the IEEE-754 total order (so NaN-valued distances, as unclamped
CIEDE2000 can produce, are ordered too), `Palette::nearest` is total and
returns an element of the palette. -/
theorem c10_nearest_total_with_nan {C F : Type} [LinearOrder F] (diff : C → C → F)
    (pal : Palette C) (target : C) (hne : pal.colors ≠ []) :
    ∃ c, Palette.nearest diff pal target = some c ∧ c ∈ pal.colors :=
  nearest_some_of_ne_nil diff pal target hne

/-- Witness for C10: a metric that is constantly NaN (modelled by the top
element of `WithBot (WithTop ℚ)`, the position NaN takes in
`f32::total_cmp`'s order): the query still returns the first entry. -/
theorem c10_witness :
    (∃ c, Palette.nearest (fun _ _ : ℚ => (⊤ : WithBot (WithTop ℚ)))
        (⟨[(1 : ℚ), 2]⟩ : Palette ℚ) 9 = some c ∧ c ∈ (⟨[(1 : ℚ), 2]⟩ : Palette ℚ).colors) ∧
    Palette.nearest (fun _ _ : ℚ => (⊤ : WithBot (WithTop ℚ)))
        (⟨[(1 : ℚ), 2]⟩ : Palette ℚ) 9 = some 1 :=
  ⟨c10_nearest_total_with_nan (fun _ _ : ℚ => (⊤ : WithBot (WithTop ℚ)))
      (⟨[(1 : ℚ), 2]⟩ : Palette ℚ) 9 (by decide),
    by decide⟩

/-!
The frame property of the four algorithms: dimensions and the alpha
channel are preserved, and only in-bounds RGB data is ever written.
-/

/-- Predicate `PresAlpha img im`: `im` has the dimensions of `img`, agrees with
`img` on every pixel's alpha channel, and agrees with `img` entirely
outside the raster bounds (so only in-bounds r, g, b data was written). -/
def PresAlpha (img im : Raster) : Prop :=
  im.width = img.width ∧ im.height = img.height ∧
  (∀ x y, (im.pix x y).a = (img.pix x y).a) ∧
  (∀ x y, img.width ≤ x ∨ img.height ≤ y → im.pix x y = img.pix x y)

theorem presAlpha_refl (img : Raster) : PresAlpha img img :=
  ⟨rfl, rfl, fun _ _ => rfl, fun _ _ _ => rfl⟩

theorem presAlpha_setRgb {img im : Raster} (h : PresAlpha img im) {x y : Nat}
    (hx : x < img.width) (hy : y < img.height) (v : Nat × Nat × Nat) :
    PresAlpha img (setRgb im x y v) := by
  obtain ⟨hw, hh, ha, hob⟩ := h
  refine ⟨hw, hh, ?_, ?_⟩
  · intro i j
    show (if i = x ∧ j = y then
        { im.pix x y with r := v.1, g := v.2.1, b := v.2.2 } else im.pix i j).a
      = (img.pix i j).a
    split
    · rename_i hij
      obtain ⟨hi, hj⟩ := hij
      subst hi
      subst hj
      exact ha i j
    · exact ha i j
  · intro i j hij
    show (if i = x ∧ j = y then
        { im.pix x y with r := v.1, g := v.2.1, b := v.2.2 } else im.pix i j)
      = img.pix i j
    split
    · rename_i hxy
      obtain ⟨hi, hj⟩ := hxy
      subst hi
      subst hj
      rcases hij with h | h
      · exact absurd hx (not_lt.2 h)
      · exact absurd hy (not_lt.2 h)
    · exact hob i j hij

theorem presAlpha_diffuse {img im : Raster} (h : PresAlpha img im)
    (cs : ColorSpaceModel) (e : V3) (x y : Nat) (dx dy : Int) (f : ℚ) :
    PresAlpha img (diffuseError cs im e x y dx dy f) := by
  rw [diffuseError]
  split
  · exact h
  split
  · exact h
  dsimp only
  cases hg : getPixel im (u32cast (x + dx)) (u32cast (y + dy)) with
  | none => exact h
  | some p =>
    have hb : u32cast (x + dx) < im.width ∧ u32cast (y + dy) < im.height := by
      by_contra hc
      rw [getPixel, if_neg hc] at hg
      exact Option.noConfusion hg
    exact presAlpha_setRgb h (h.1 ▸ hb.1) (h.2.1 ▸ hb.2) _

theorem thStep_pres {F : Type} [LinearOrder F] (cs : ColorSpaceModel) (diff : V3 → V3 → F)
    (pal : Palette V3) (hne : pal.colors ≠ []) {img im : Raster} (h : PresAlpha img im)
    {x y : Nat} (hx : x < img.width) (hy : y < img.height) :
    ∃ im2, thStep cs diff pal im x y = some im2 ∧ PresAlpha img im2 := by
  obtain ⟨c, hc, _⟩ := nearest_some_of_ne_nil diff pal
    (cs.fromRgb (im.pix x y).r (im.pix x y).g (im.pix x y).b) hne
  rw [thStep]
  rw [hc]
  exact ⟨_, rfl, presAlpha_setRgb h hx hy _⟩

theorem fsStep_pres {F : Type} [LinearOrder F] (cs : ColorSpaceModel) (diff : V3 → V3 → F)
    (pal : Palette V3) (hne : pal.colors ≠ []) {img im : Raster} (h : PresAlpha img im)
    {x y : Nat} (hx : x < img.width) (hy : y < img.height) :
    ∃ im2, fsStep cs diff pal im x y = some im2 ∧ PresAlpha img im2 := by
  obtain ⟨c, hc, _⟩ := nearest_some_of_ne_nil diff pal
    (cs.fromRgb (im.pix x y).r (im.pix x y).g (im.pix x y).b) hne
  rw [fsStep]
  dsimp only
  rw [hc]
  refine ⟨_, rfl, ?_⟩
  exact presAlpha_diffuse (presAlpha_diffuse (presAlpha_diffuse (presAlpha_diffuse
    (presAlpha_setRgb h hx hy _) cs _ x y 1 0 _) cs _ x y (-1) 1 _) cs _ x y 0 1 _)
    cs _ x y 1 1 _

theorem stStep_pres {F : Type} [LinearOrder F] (cs : ColorSpaceModel) (diff : V3 → V3 → F)
    (pal : Palette V3) (hne : pal.colors ≠ []) {img im : Raster} (h : PresAlpha img im)
    {x y : Nat} (hx : x < img.width) (hy : y < img.height) :
    ∃ im2, stStep cs diff pal im x y = some im2 ∧ PresAlpha img im2 := by
  obtain ⟨c, hc, _⟩ := nearest_some_of_ne_nil diff pal
    (cs.fromRgb (im.pix x y).r (im.pix x y).g (im.pix x y).b) hne
  rw [stStep]
  dsimp only
  rw [hc]
  refine ⟨_, rfl, ?_⟩
  exact presAlpha_diffuse (presAlpha_diffuse (presAlpha_diffuse (presAlpha_diffuse
    (presAlpha_diffuse (presAlpha_diffuse (presAlpha_diffuse (presAlpha_diffuse
    (presAlpha_diffuse (presAlpha_diffuse (presAlpha_diffuse (presAlpha_diffuse
    (presAlpha_setRgb h hx hy _) cs _ x y 1 0 _) cs _ x y 2 0 _) cs _ x y (-2) 1 _)
    cs _ x y (-1) 1 _) cs _ x y 0 1 _) cs _ x y 1 1 _) cs _ x y 2 1 _)
    cs _ x y (-2) 2 _) cs _ x y (-1) 2 _) cs _ x y 0 2 _) cs _ x y 1 2 _) cs _ x y 2 2 _

theorem randStep_pres {F S : Type} [LinearOrder F] (cs : ColorSpaceModel)
    (diff : V3 → V3 → F) (pal : Palette V3) (draw : S → ℚ × S) (hne : pal.colors ≠ [])
    {img : Raster} {st : Raster × S} (h : PresAlpha img st.1)
    {x y : Nat} (hx : x < img.width) (hy : y < img.height) :
    ∃ st2, randStep cs diff pal draw st x y = some st2 ∧ PresAlpha img st2.1 := by
  obtain ⟨c, hc, _⟩ := nearest_some_of_ne_nil diff pal
    (addChan (addChan (addChan
      (cs.fromRgb (st.1.pix x y).r (st.1.pix x y).g (st.1.pix x y).b)
      0 (draw st.2).1) 1 (draw (draw st.2).2).1) 2 (draw (draw (draw st.2).2).2).1) hne
  rw [randStep]
  rw [hc]
  exact ⟨_, rfl, presAlpha_setRgb h hx hy _⟩

theorem runThreshold_some {F : Type} [LinearOrder F] (cs : ColorSpaceModel)
    (diff : V3 → V3 → F) (pal : Palette V3) (hne : pal.colors ≠ []) (img : Raster) :
    ∃ out, runThreshold cs diff pal img = some out ∧ PresAlpha img out := by
  rw [runThreshold]
  refine optFold_some (PresAlpha img) _ (List.range img.height) img ?_ (presAlpha_refl img)
  intro im y him hy
  have hw : im.width = img.width := him.1
  rw [hw]
  refine optFold_some (PresAlpha img) _ (List.range img.width) im ?_ him
  intro im2 x him2 hx
  exact thStep_pres cs diff pal hne him2 (List.mem_range.1 hx) (List.mem_range.1 hy)

theorem runFS_some {F : Type} [LinearOrder F] (cs : ColorSpaceModel)
    (diff : V3 → V3 → F) (pal : Palette V3) (hne : pal.colors ≠ []) (img : Raster) :
    ∃ out, runFS cs diff pal img = some out ∧ PresAlpha img out := by
  rw [runFS]
  refine optFold_some (PresAlpha img) _ (List.range img.height) img ?_ (presAlpha_refl img)
  intro im y him hy
  have hw : im.width = img.width := him.1
  rw [hw]
  refine optFold_some (PresAlpha img) _ (List.range img.width) im ?_ him
  intro im2 x him2 hx
  exact fsStep_pres cs diff pal hne him2 (List.mem_range.1 hx) (List.mem_range.1 hy)

theorem runStucki_some {F : Type} [LinearOrder F] (cs : ColorSpaceModel)
    (diff : V3 → V3 → F) (pal : Palette V3) (hne : pal.colors ≠ []) (img : Raster) :
    ∃ out, runStucki cs diff pal img = some out ∧ PresAlpha img out := by
  rw [runStucki]
  refine optFold_some (PresAlpha img) _ (List.range img.height) img ?_ (presAlpha_refl img)
  intro im y him hy
  have hw : im.width = img.width := him.1
  rw [hw]
  refine optFold_some (PresAlpha img) _ (List.range img.width) im ?_ him
  intro im2 x him2 hx
  exact stStep_pres cs diff pal hne him2 (List.mem_range.1 hx) (List.mem_range.1 hy)

theorem runRandom_some {F S : Type} [LinearOrder F] (cs : ColorSpaceModel)
    (diff : V3 → V3 → F) (pal : Palette V3) (rng : RngModel S) (hne : pal.colors ≠ [])
    (img : Raster) :
    ∃ out, runRandom cs diff pal rng img = some out ∧ PresAlpha img out := by
  have hmain : ∃ st2,
      optFold (fun st y => optFold (fun st2 x => randStep cs diff pal rng.draw st2 x y) st
        (List.range st.1.width)) (img, rng.seedFrom 0) (List.range img.height) = some st2 ∧
      PresAlpha img st2.1 := by
    refine optFold_some (fun st : Raster × S => PresAlpha img st.1) _
      (List.range img.height) (img, rng.seedFrom 0) ?_ (presAlpha_refl img)
    intro st y hst hy
    have hw : st.1.width = img.width := hst.1
    rw [hw]
    refine optFold_some (fun st : Raster × S => PresAlpha img st.1) _
      (List.range img.width) st ?_ hst
    intro st2 x hst2 hx
    exact randStep_pres cs diff pal rng.draw hne hst2 (List.mem_range.1 hx)
      (List.mem_range.1 hy)
  obtain ⟨st2, hst, hp⟩ := hmain
  rw [runRandom, hst]
  exact ⟨st2.1, rfl, hp⟩

/-- Claim C5: for every input raster, non-empty palette and each of the
four quantization algorithms (Threshold, Random, Floyd-Steinberg,
Stucki), the run succeeds and the output raster has the dimensions of the
input with every pixel's alpha channel unchanged; only in-bounds R, G, B
data is ever written (`PresAlpha`). -/
theorem c5_alpha_and_dims_preserved {F S : Type} [LinearOrder F] (cs : ColorSpaceModel)
    (diff : V3 → V3 → F) (pal : Palette V3) (rng : RngModel S) (img : Raster)
    (hne : pal.colors ≠ []) :
    (∃ out, runThreshold cs diff pal img = some out ∧ PresAlpha img out) ∧
    (∃ out, runRandom cs diff pal rng img = some out ∧ PresAlpha img out) ∧
    (∃ out, runFS cs diff pal img = some out ∧ PresAlpha img out) ∧
    (∃ out, runStucki cs diff pal img = some out ∧ PresAlpha img out) :=
  ⟨runThreshold_some cs diff pal hne img, runRandom_some cs diff pal rng hne img,
    runFS_some cs diff pal hne img, runStucki_some cs diff pal hne img⟩

/-- A trivial generator model (used only to instantiate witnesses). -/
def unitRng : RngModel Unit where
  seedFrom := fun _ => ()
  draw := fun _ => (0, ())

/-- A concrete 2-by-2 test raster. -/
def testImg : Raster where
  width := 2
  height := 2
  pix := fun x y => ⟨60 * x + 10, 60 * y + 20, 30, 200 + x + y⟩

/-- A concrete black-and-white palette in the rational sRGB model. -/
def testPal : Palette V3 := ⟨[((0 : ℚ), (0 : ℚ), (0 : ℚ)), ((1 : ℚ), (1 : ℚ), (1 : ℚ))]⟩

/-- Witness for C5 at a concrete raster, palette, space and metric. -/
theorem c5_witness :
    testPal.colors ≠ [] ∧
    ((∃ out, runThreshold srgbSpace manhattanQ testPal testImg = some out ∧
        PresAlpha testImg out) ∧
      (∃ out, runRandom srgbSpace manhattanQ testPal unitRng testImg = some out ∧
        PresAlpha testImg out) ∧
      (∃ out, runFS srgbSpace manhattanQ testPal testImg = some out ∧
        PresAlpha testImg out) ∧
      (∃ out, runStucki srgbSpace manhattanQ testPal testImg = some out ∧
        PresAlpha testImg out)) :=
  ⟨by decide,
    c5_alpha_and_dims_preserved srgbSpace manhattanQ testPal unitRng testImg (by decide)⟩

/-! The 1-by-1 raster: error diffusion degenerates to thresholding. -/

theorem optFold_single {α β : Type} (f : β → α → Option β) (b : β) (a : α) :
    optFold f b [a] = f b a := by
  rw [optFold_cons]
  cases f b a <;> rfl

/-- A diffusion step whose bounds-checked lookup fails leaves the raster
unchanged. -/
theorem diffuseError_none (cs : ColorSpaceModel) (im : Raster) (e : V3)
    (x y : Nat) (dx dy : Int) (f : ℚ)
    (hg : getPixel im (u32cast (x + dx)) (u32cast (y + dy)) = none) :
    diffuseError cs im e x y dx dy f = im := by
  rw [diffuseError]
  split
  · rfl
  split
  · rfl
  dsimp only
  rw [hg]

/-- On a 1-by-1 raster every diffusion target of the pixel `(0, 0)` with a
kernel offset (not both components zero, horizontal at most 2, vertical
between 0 and 2) is rejected. -/
theorem diffuse_id_1x1 (cs : ColorSpaceModel) (im : Raster) (e : V3) (dx dy : Int) (f : ℚ)
    (hw : im.width = 1) (hh : im.height = 1) (hne0 : dx ≠ 0 ∨ dy ≠ 0)
    (hdx : dx ≤ 2) (hdy0 : 0 ≤ dy) (hdy2 : dy ≤ 2) :
    diffuseError cs im e 0 0 dx dy f = im := by
  by_cases hdxneg : dx < 0
  · rw [diffuseError, if_pos ⟨rfl, hdxneg⟩]
  · apply diffuseError_none
    rw [getPixel, if_neg]
    intro hcon
    obtain ⟨hx, hy⟩ := hcon
    rw [hw] at hx
    rw [hh] at hy
    have hxx : u32cast (((0 : Nat) : Int) + dx) = dx.toNat := by
      rw [u32cast, Nat.cast_zero, zero_add,
        Int.emod_eq_of_lt (le_of_not_lt hdxneg) (by omega)]
    have hyy : u32cast (((0 : Nat) : Int) + dy) = dy.toNat := by
      rw [u32cast, Nat.cast_zero, zero_add, Int.emod_eq_of_lt hdy0 (by omega)]
    rw [hxx] at hx
    rw [hyy] at hy
    rcases hne0 with h | h
    · exact h (by omega)
    · exact h (by omega)

/-- Reduction of any of the per-pixel algorithms on a 1-by-1 raster: a
single pixel step at `(0, 0)`. -/
theorem run_1x1 (step : Raster → Nat → Nat → Option Raster) (img : Raster)
    (hw : img.width = 1) (hh : img.height = 1) :
    optFold (fun im y => optFold (fun im2 x => step im2 x y) im (List.range im.width)) img
      (List.range img.height) = step img 0 0 := by
  rw [hh, show List.range 1 = [0] from rfl, optFold_single]
  rw [hw, show List.range 1 = [0] from rfl, optFold_single]

theorem fsStep_eq_thStep_1x1 {F : Type} [LinearOrder F] (cs : ColorSpaceModel)
    (diff : V3 → V3 → F) (pal : Palette V3) (im : Raster)
    (hw : im.width = 1) (hh : im.height = 1) :
    fsStep cs diff pal im 0 0 = thStep cs diff pal im 0 0 := by
  rw [fsStep, thStep]
  cases hc : Palette.nearest diff pal
      (cs.fromRgb (im.pix 0 0).r (im.pix 0 0).g (im.pix 0 0).b) with
  | none => rfl
  | some c =>
    dsimp only
    have key : ∀ (b : Raster), b.width = 1 → b.height = 1 → ∀ e : V3,
        diffuseError cs (diffuseError cs (diffuseError cs (diffuseError cs b e 0 0 1 0
          (7 / 16)) e 0 0 (-1) 1 (3 / 16)) e 0 0 0 1 (5 / 16)) e 0 0 1 1 (1 / 16) = b := by
      intro b hbw hbh e
      rw [diffuse_id_1x1 cs b e 1 0 _ hbw hbh (Or.inl (by norm_num)) (by norm_num)
        (by norm_num) (by norm_num)]
      rw [diffuse_id_1x1 cs b e (-1) 1 _ hbw hbh (Or.inl (by norm_num)) (by norm_num)
        (by norm_num) (by norm_num)]
      rw [diffuse_id_1x1 cs b e 0 1 _ hbw hbh (Or.inr (by norm_num)) (by norm_num)
        (by norm_num) (by norm_num)]
      rw [diffuse_id_1x1 cs b e 1 1 _ hbw hbh (Or.inl (by norm_num)) (by norm_num)
        (by norm_num) (by norm_num)]
    rw [key (setRgb im 0 0 (cs.toRgb c)) (by rw [setRgb_width, hw])
      (by rw [setRgb_height, hh])]

theorem stStep_eq_thStep_1x1 {F : Type} [LinearOrder F] (cs : ColorSpaceModel)
    (diff : V3 → V3 → F) (pal : Palette V3) (im : Raster)
    (hw : im.width = 1) (hh : im.height = 1) :
    stStep cs diff pal im 0 0 = thStep cs diff pal im 0 0 := by
  rw [stStep, thStep]
  cases hc : Palette.nearest diff pal
      (cs.fromRgb (im.pix 0 0).r (im.pix 0 0).g (im.pix 0 0).b) with
  | none => rfl
  | some c =>
    dsimp only
    have key : ∀ (b : Raster), b.width = 1 → b.height = 1 → ∀ e : V3,
        diffuseError cs (diffuseError cs (diffuseError cs (diffuseError cs (diffuseError cs
          (diffuseError cs (diffuseError cs (diffuseError cs (diffuseError cs (diffuseError cs
          (diffuseError cs (diffuseError cs b
            e 0 0 1 0 (8 / 42)) e 0 0 2 0 (4 / 42)) e 0 0 (-2) 1 (2 / 42))
            e 0 0 (-1) 1 (4 / 42)) e 0 0 0 1 (8 / 42)) e 0 0 1 1 (4 / 42))
            e 0 0 2 1 (2 / 42)) e 0 0 (-2) 2 (1 / 42)) e 0 0 (-1) 2 (2 / 42))
            e 0 0 0 2 (4 / 42)) e 0 0 1 2 (2 / 42)) e 0 0 2 2 (1 / 42) = b := by
      intro b hbw hbh e
      rw [diffuse_id_1x1 cs b e 1 0 _ hbw hbh (Or.inl (by norm_num)) (by norm_num)
        (by norm_num) (by norm_num)]
      rw [diffuse_id_1x1 cs b e 2 0 _ hbw hbh (Or.inl (by norm_num)) (by norm_num)
        (by norm_num) (by norm_num)]
      rw [diffuse_id_1x1 cs b e (-2) 1 _ hbw hbh (Or.inl (by norm_num)) (by norm_num)
        (by norm_num) (by norm_num)]
      rw [diffuse_id_1x1 cs b e (-1) 1 _ hbw hbh (Or.inl (by norm_num)) (by norm_num)
        (by norm_num) (by norm_num)]
      rw [diffuse_id_1x1 cs b e 0 1 _ hbw hbh (Or.inr (by norm_num)) (by norm_num)
        (by norm_num) (by norm_num)]
      rw [diffuse_id_1x1 cs b e 1 1 _ hbw hbh (Or.inl (by norm_num)) (by norm_num)
        (by norm_num) (by norm_num)]
      rw [diffuse_id_1x1 cs b e 2 1 _ hbw hbh (Or.inl (by norm_num)) (by norm_num)
        (by norm_num) (by norm_num)]
      rw [diffuse_id_1x1 cs b e (-2) 2 _ hbw hbh (Or.inl (by norm_num)) (by norm_num)
        (by norm_num) (by norm_num)]
      rw [diffuse_id_1x1 cs b e (-1) 2 _ hbw hbh (Or.inl (by norm_num)) (by norm_num)
        (by norm_num) (by norm_num)]
      rw [diffuse_id_1x1 cs b e 0 2 _ hbw hbh (Or.inr (by norm_num)) (by norm_num)
        (by norm_num) (by norm_num)]
      rw [diffuse_id_1x1 cs b e 1 2 _ hbw hbh (Or.inl (by norm_num)) (by norm_num)
        (by norm_num) (by norm_num)]
      rw [diffuse_id_1x1 cs b e 2 2 _ hbw hbh (Or.inl (by norm_num)) (by norm_num)
        (by norm_num) (by norm_num)]
    rw [key (setRgb im 0 0 (cs.toRgb c)) (by rw [setRgb_width, hw])
      (by rw [setRgb_height, hh])]

/-- Claim C6: on a 1-by-1 raster, for every color space, metric and
palette, Floyd-Steinberg and Stucki produce exactly the Threshold output
(every diffusion target lies outside the raster, so all diffused error is
dropped). -/
theorem c6_1x1_diffusion_equals_threshold {F : Type} [LinearOrder F] (cs : ColorSpaceModel)
    (diff : V3 → V3 → F) (pal : Palette V3) (img : Raster)
    (hw : img.width = 1) (hh : img.height = 1) :
    runFS cs diff pal img = runThreshold cs diff pal img ∧
    runStucki cs diff pal img = runThreshold cs diff pal img := by
  constructor
  · rw [runFS, runThreshold, run_1x1 _ img hw hh, run_1x1 _ img hw hh]
    exact fsStep_eq_thStep_1x1 cs diff pal img hw hh
  · rw [runStucki, runThreshold, run_1x1 _ img hw hh, run_1x1 _ img hw hh]
    exact stStep_eq_thStep_1x1 cs diff pal img hw hh

/-- A concrete 1-by-1 test raster. -/
def oneImg : Raster where
  width := 1
  height := 1
  pix := fun _ _ => ⟨200, 90, 5, 33⟩

/-- Witness for C6 at a concrete 1-by-1 raster. -/
theorem c6_witness :
    oneImg.width = 1 ∧ oneImg.height = 1 ∧
    (runFS srgbSpace manhattanQ testPal oneImg = runThreshold srgbSpace manhattanQ testPal oneImg ∧
      runStucki srgbSpace manhattanQ testPal oneImg =
        runThreshold srgbSpace manhattanQ testPal oneImg) :=
  ⟨rfl, rfl, c6_1x1_diffusion_equals_threshold srgbSpace manhattanQ testPal oneImg rfl rfl⟩

/-! The black-and-white transform: the `Cielab` branch does not zero the
chroma channels. -/

/-- Claim C8 (code bug): in the `Cielab` branch of `bw::Method::to_bw` the
Lab value written back has both chroma channels set to `0.5` — not `0` as
the claim and the spec state (and as the `Oklab` branch, which does set
them to `0`, corroborates); the lightness channel is left unchanged in
both branches. -/
theorem c8_bw_lab_chroma_half_not_zero (cv : LabConvModel) (p : V3) :
    (cieBwLab cv p).a = 1 / 2 ∧ (cieBwLab cv p).b = 1 / 2 ∧
    (cieBwLab cv p).l = (cv.srgbToLab p).l ∧
    ((1 : ℚ) / 2 ≠ 0) ∧
    toBwCie cv p = cv.labToSrgb (cieBwLab cv p) ∧
    (oklabBwLab cv p).a = 0 ∧ (oklabBwLab cv p).b = 0 ∧
    (oklabBwLab cv p).l = (cv.srgbToOklab p).l :=
  ⟨rfl, rfl, rfl, by norm_num, rfl, rfl, rfl, rfl⟩

/-! The hexadecimal palette-color parser. -/

/-- ASCII hexadecimal digits occupy one UTF-8 byte each, so on all-hex
strings the byte length equals the character count. -/
theorem strByteLen_of_hex :
    ∀ (s : List Char), s.all isHexDigitChar = true → strByteLen s = s.length := by
  intro s
  induction s with
  | nil => intro _; rfl
  | cons c t ih =>
    intro h
    rw [List.all_cons, Bool.and_eq_true] at h
    have h1 : utf8Len c = 1 := by
      have hc := h.1
      rw [isHexDigitChar, decide_eq_true_eq] at hc
      rw [utf8Len, if_pos (by omega)]
    have ht := ih h.2
    simp only [strByteLen, List.map_cons, List.sum_cons, List.length_cons] at ht ⊢
    rw [h1, ht]
    omega

theorem exists_six_of_length {α : Type} (s : List α) (h : s.length = 6) :
    ∃ a b c d e f, s = [a, b, c, d, e, f] := by
  obtain ⟨a, s, rfl⟩ := List.exists_of_length_succ s h
  rw [List.length_cons] at h
  obtain ⟨b, s, rfl⟩ := List.exists_of_length_succ s (show s.length = 5 by omega)
  rw [List.length_cons] at h
  obtain ⟨c, s, rfl⟩ := List.exists_of_length_succ s (show s.length = 4 by omega)
  rw [List.length_cons] at h
  obtain ⟨d, s, rfl⟩ := List.exists_of_length_succ s (show s.length = 3 by omega)
  rw [List.length_cons] at h
  obtain ⟨e, s, rfl⟩ := List.exists_of_length_succ s (show s.length = 2 by omega)
  rw [List.length_cons] at h
  obtain ⟨f, s, rfl⟩ := List.exists_of_length_succ s (show s.length = 1 by omega)
  rw [List.length_cons] at h
  rw [List.length_eq_zero.1 (show s.length = 0 by omega)]
  exact ⟨a, b, c, d, e, f, rfl⟩

/-- On six hexadecimal digits the parser returns the three base-16 pairs. -/
theorem fromStr_ok_of_hex (c1 c2 c3 c4 c5 c6 : Char)
    (hall : ([c1, c2, c3, c4, c5, c6].all isHexDigitChar) = true) :
    fromStrSrgbColor [c1, c2, c3, c4, c5, c6] = .ok
      (16 * hexVal c1 + hexVal c2, 16 * hexVal c3 + hexVal c4,
        16 * hexVal c5 + hexVal c6) := by
  have hb : strByteLen [c1, c2, c3, c4, c5, c6] = 6 := by
    rw [strByteLen_of_hex _ hall]
    rfl
  rw [fromStrSrgbColor.eq_def, if_neg (by simp [hb]), if_neg (by simp [hall])]

/-- Claim C9: parsing a palette color succeeds exactly when the input is
six ASCII hexadecimal digits, in which case the channels are the three
consecutive two-digit base-16 pairs; the algorithms receive only an
already-parsed `Palette`, so a malformed color is a configuration error
raised before any pixel is processed. -/
theorem c9_hex_color_parse (s : List Char) :
    ((∃ v, fromStrSrgbColor s = .ok v) ↔ (s.length = 6 ∧ s.all isHexDigitChar = true)) ∧
    (∀ c1 c2 c3 c4 c5 c6, s = [c1, c2, c3, c4, c5, c6] →
      s.all isHexDigitChar = true →
      fromStrSrgbColor s = .ok
        (16 * hexVal c1 + hexVal c2, 16 * hexVal c3 + hexVal c4,
          16 * hexVal c5 + hexVal c6)) := by
  constructor
  · constructor
    · rintro ⟨v, hv⟩
      rw [fromStrSrgbColor.eq_def] at hv
      by_cases h6 : strByteLen s ≠ 6
      · rw [if_pos h6] at hv
        exact Except.noConfusion hv
      · rw [if_neg h6] at hv
        by_cases hall : ¬ (s.all isHexDigitChar = true)
        · rw [if_pos (by simpa using hall)] at hv
          exact Except.noConfusion hv
        · have hallt : s.all isHexDigitChar = true := not_not.1 hall
          have hlen : s.length = 6 := by
            rw [← strByteLen_of_hex s hallt]
            exact not_not.1 h6
          exact ⟨hlen, hallt⟩
    · rintro ⟨hlen, hall⟩
      obtain ⟨a, b, c, d, e, f, rfl⟩ := exists_six_of_length s hlen
      exact ⟨_, fromStr_ok_of_hex a b c d e f hall⟩
  · rintro c1 c2 c3 c4 c5 c6 rfl hall
    exact fromStr_ok_of_hex c1 c2 c3 c4 c5 c6 hall

/-- Witness for C9: the string `1a2B3c` parses to `(26, 43, 60)`, and a
success on it is certified through the parse characterization. -/
theorem c9_witness :
    fromStrSrgbColor ['1', 'a', '2', 'B', '3', 'c'] = .ok (26, 43, 60) ∧
    (['1', 'a', '2', 'B', '3', 'c'].length = 6 ∧
      ['1', 'a', '2', 'B', '3', 'c'].all isHexDigitChar = true) := by
  have h := (c9_hex_color_parse ['1', 'a', '2', 'B', '3', 'c']).2
    '1' 'a' '2' 'B' '3' 'c' rfl (by decide)
  constructor
  · rw [h, show (16 * hexVal '1' + hexVal 'a', 16 * hexVal '2' + hexVal 'B',
      16 * hexVal '3' + hexVal 'c') = ((26 : Nat), (43 : Nat), (60 : Nat)) from by decide]
  · exact (c9_hex_color_parse ['1', 'a', '2', 'B', '3', 'c']).1.1 ⟨_, h⟩

/-! Floyd-Steinberg: the code's diffusion agrees with the specification's
description of it. -/

/-- For the offsets Floyd-Steinberg uses (horizontal at least `-1`,
vertical non-negative) and coordinates below `2^32` (the `u32` range), the
code's wrap-around diffusion coincides with the spec-level diffusion. -/
theorem diffuse_code_eq_spec (cs : ColorSpaceModel) (im : Raster) (e : V3)
    (x y : Nat) (dx dy : Int) (f : ℚ)
    (hdx : -1 ≤ dx) (hdy : 0 ≤ dy)
    (hxw : (x : Int) + dx < 4294967296) (hyh : (y : Int) + dy < 4294967296) :
    diffuseError cs im e x y dx dy f = diffuseSpec cs im e x y dx dy f := by
  rw [diffuseError, diffuseSpec]
  by_cases h1 : x = 0 ∧ dx < 0
  · rw [if_pos h1, if_pos h1]
  rw [if_neg h1, if_neg h1]
  have h2 : ¬ (y = 0 ∧ dy < 0) := fun h => absurd hdy (not_le.2 h.2)
  rw [if_neg h2, if_neg h2]
  dsimp only
  have hx0 : 0 ≤ (x : Int) + dx := by
    rcases lt_or_le dx 0 with hneg | hpos
    · have hx1 : x ≠ 0 := fun h0 => h1 ⟨h0, hneg⟩
      omega
    · omega
  have hy0 : 0 ≤ (y : Int) + dy := by omega
  have hxc : u32cast ((x : Int) + dx) = ((x : Int) + dx).toNat := by
    rw [u32cast, Int.emod_eq_of_lt hx0 hxw]
  have hyc : u32cast ((y : Int) + dy) = ((y : Int) + dy).toNat := by
    rw [u32cast, Int.emod_eq_of_lt hy0 hyh]
  rw [hxc, hyc, getPixel]
  by_cases hb : 0 ≤ (x : Int) + dx ∧ (x : Int) + dx < (im.width : Int) ∧
      0 ≤ (y : Int) + dy ∧ (y : Int) + dy < (im.height : Int)
  · rw [if_pos (show ((x : Int) + dx).toNat < im.width ∧ ((y : Int) + dy).toNat < im.height
      by omega), if_pos hb]
  · rw [if_neg (show ¬ (((x : Int) + dx).toNat < im.width ∧
      ((y : Int) + dy).toNat < im.height) by omega), if_neg hb]

theorem fsStep_code_eq_spec {F : Type} [LinearOrder F] (cs : ColorSpaceModel)
    (diff : V3 → V3 → F) (pal : Palette V3) (im : Raster) (x y : Nat)
    (hx : x < im.width) (hy : y < im.height)
    (hw : (im.width : Int) ≤ 4294967295) (hh : (im.height : Int) ≤ 4294967295) :
    fsStep cs diff pal im x y = fsSpecStep cs diff pal im x y := by
  rw [fsStep, fsSpecStep]
  cases hc : Palette.nearest diff pal
      (cs.fromRgb (im.pix x y).r (im.pix x y).g (im.pix x y).b) with
  | none => rfl
  | some c =>
    dsimp only
    have key : ∀ (b : Raster) (e : V3),
        diffuseError cs (diffuseError cs (diffuseError cs (diffuseError cs b e x y 1 0
            (7 / 16)) e x y (-1) 1 (3 / 16)) e x y 0 1 (5 / 16)) e x y 1 1 (1 / 16)
        = diffuseSpec cs (diffuseSpec cs (diffuseSpec cs (diffuseSpec cs b e x y 1 0
            (7 / 16)) e x y (-1) 1 (3 / 16)) e x y 0 1 (5 / 16)) e x y 1 1 (1 / 16) := by
      intro b e
      rw [diffuse_code_eq_spec cs b e x y 1 0 _ (by norm_num) (by norm_num)
        (by omega) (by omega)]
      rw [diffuse_code_eq_spec cs _ e x y (-1) 1 _ (by norm_num) (by norm_num)
        (by omega) (by omega)]
      rw [diffuse_code_eq_spec cs _ e x y 0 1 _ (by norm_num) (by norm_num)
        (by omega) (by omega)]
      rw [diffuse_code_eq_spec cs _ e x y 1 1 _ (by norm_num) (by norm_num)
        (by omega) (by omega)]
    rw [key]

/-- Dimensions are unchanged by a successful Floyd-Steinberg pixel step. -/
theorem fsStep_dims {F : Type} [LinearOrder F] (cs : ColorSpaceModel)
    (diff : V3 → V3 → F) (pal : Palette V3) {im im2 : Raster} {x y : Nat}
    (h : fsStep cs diff pal im x y = some im2) :
    im2.width = im.width ∧ im2.height = im.height := by
  rw [fsStep] at h
  cases hc : Palette.nearest diff pal
      (cs.fromRgb (im.pix x y).r (im.pix x y).g (im.pix x y).b) with
  | none =>
    rw [hc] at h
    exact Option.noConfusion h
  | some c =>
    rw [hc] at h
    dsimp only at h
    rw [← Option.some.inj h]
    constructor
    · rw [diffuseError_width, diffuseError_width, diffuseError_width, diffuseError_width,
        setRgb_width]
    · rw [diffuseError_height, diffuseError_height, diffuseError_height, diffuseError_height,
        setRgb_height]

/-- Claim C1: for every raster whose dimensions fit in `u32` (and every
palette, color space and metric), `AlgoFloydSteinberg::run` computes
exactly the spec-level description: raster order, per pixel
`after = palette.nearest(before)`, `error = before - after`, write
`after`, then distribute the error to `(+1,0)`, `(-1,+1)`, `(0,+1)`,
`(+1,+1)` with weights `7/16`, `3/16`, `5/16`, `1/16`, additively onto the
neighbor's current device value, written straight back. -/
theorem c1_fs_matches_spec {F : Type} [LinearOrder F] (cs : ColorSpaceModel)
    (diff : V3 → V3 → F) (pal : Palette V3) (img : Raster)
    (hw : (img.width : Int) ≤ 4294967295) (hh : (img.height : Int) ≤ 4294967295) :
    runFS cs diff pal img = runFSSpec cs diff pal img := by
  rw [runFS, runFSSpec]
  refine optFold_congr (fun im => im.width = img.width ∧ im.height = img.height) _ _
    (List.range img.height) img ?_ ?_ ⟨rfl, rfl⟩
  · intro im y him hy
    rw [him.1]
    refine optFold_congr (fun im2 => im2.width = img.width ∧ im2.height = img.height) _ _
      (List.range img.width) im ?_ ?_ him
    · intro im2 x him2 hx
      refine fsStep_code_eq_spec cs diff pal im2 x y ?_ ?_ ?_ ?_
      · rw [him2.1]
        exact List.mem_range.1 hx
      · rw [him2.2]
        exact List.mem_range.1 hy
      · rw [him2.1]
        exact hw
      · rw [him2.2]
        exact hh
    · intro im2 x im3 him2 hx hstep
      obtain ⟨h1, h2⟩ := fsStep_dims cs diff pal hstep
      exact ⟨h1.trans him2.1, h2.trans him2.2⟩
  · intro im y im2 him hy hrow
    refine optFold_pres (fun im2 => im2.width = img.width ∧ im2.height = img.height) _
      (List.range im.width) im im2 ?_ him hrow
    intro im3 x im4 him3 hx hstep
    obtain ⟨h1, h2⟩ := fsStep_dims cs diff pal hstep
    exact ⟨h1.trans him3.1, h2.trans him3.2⟩

/-- Witness for C1 at a concrete raster, palette, space and metric. -/
theorem c1_witness :
    ((testImg.width : Int) ≤ 4294967295 ∧ (testImg.height : Int) ≤ 4294967295) ∧
    runFS srgbSpace manhattanQ testPal testImg = runFSSpec srgbSpace manhattanQ testPal testImg :=
  ⟨⟨by decide, by decide⟩,
    c1_fs_matches_spec srgbSpace manhattanQ testPal testImg (by decide) (by decide)⟩

/-! Boundary handling of the error diffusion. -/

/-- Claim C2, amended: (a) Floyd-Steinberg and Stucki succeed on a
non-empty palette and never touch the raster outside its bounds (nor
alpha, nor the dimensions); (b) a negative offset from column 0 or row 0
is rejected before any index arithmetic; (c) for rasters whose dimensions
are at most `2^32 - 2`, any diffusion target outside the raster (negative
column, or beyond the right or bottom edge) is rejected by the
bounds-checked lookup and the raster is returned unchanged — the error
share is simply dropped. -/
theorem c2_amended_boundary {F : Type} [LinearOrder F] (cs : ColorSpaceModel)
    (diff : V3 → V3 → F) (pal : Palette V3) (img : Raster) (hne : pal.colors ≠ []) :
    ((∃ out, runFS cs diff pal img = some out ∧ PresAlpha img out) ∧
      (∃ out, runStucki cs diff pal img = some out ∧ PresAlpha img out)) ∧
    (∀ (e : V3) (x y : Nat) (dx dy : Int) (f : ℚ),
      (x = 0 ∧ dx < 0) ∨ (y = 0 ∧ dy < 0) → diffuseError cs img e x y dx dy f = img) ∧
    (∀ (e : V3) (x y : Nat) (dx dy : Int) (f : ℚ),
      (img.width : Int) ≤ 4294967294 → (img.height : Int) ≤ 4294967294 →
      x < img.width → y < img.height → -2 ≤ dx → dx ≤ 2 → 0 ≤ dy → dy ≤ 2 →
      ((x : Int) + dx < 0 ∨ (img.width : Int) ≤ (x : Int) + dx ∨
        (img.height : Int) ≤ (y : Int) + dy) →
      diffuseError cs img e x y dx dy f = img) := by
  refine ⟨⟨runFS_some cs diff pal hne img, runStucki_some cs diff pal hne img⟩, ?_, ?_⟩
  · intro e x y dx dy f h
    rcases h with h | h
    · rw [diffuseError, if_pos h]
    · by_cases h1 : x = 0 ∧ dx < 0
      · rw [diffuseError, if_pos h1]
      · rw [diffuseError, if_neg h1, if_pos h]
  · intro e x y dx dy f hw2 hh2 hx hy hdx1 hdx2 hdy1 hdy2 hout
    by_cases h1 : x = 0 ∧ dx < 0
    · rw [diffuseError, if_pos h1]
    apply diffuseError_none
    rw [getPixel, if_neg]
    simp only [u32cast]
    have hx1 : ¬ (x = 0) ∨ ¬ (dx < 0) := not_and_or.1 h1
    omega

/-- The adversarial raster for the counterexample: width `2^32 - 1` (the
maximal `u32` dimension), height 1, all pixels black with full alpha. -/
def cxImg : Raster where
  width := 4294967295
  height := 1
  pix := fun _ _ => ⟨0, 0, 0, 255⟩

/-- Counterexample to C2 as stated: on a raster of width `2^32 - 1`, the
Stucki diffusion call at pixel `x = 2^32 - 2` with offset `(+2, 0)` (a
target beyond the right edge, since `width ≤ x + 2`) is NOT rejected: the
`i32`-to-`u32` cast wraps the target column to 0, and the error lands in
the already-visited pixel `(0, 0)`, which changes from black to
`(24, 24, 24)`. -/
theorem c2_counterexample :
    (cxImg.width : Int) ≤ ((4294967294 : Nat) : Int) + 2 ∧
    (diffuseError srgbSpace cxImg ((1 : ℚ), (1 : ℚ), (1 : ℚ))
        4294967294 0 2 0 (4 / 42)).pix 0 0 = ⟨24, 24, 24, 255⟩ ∧
    cxImg.pix 0 0 = ⟨0, 0, 0, 255⟩ := by
  refine ⟨by decide, ?_, rfl⟩
  rw [diffuseError, if_neg (by decide), if_neg (by decide)]
  dsimp only
  rw [show u32cast (((4294967294 : Nat) : Int) + 2) = 0 from by
    simp only [u32cast]
    decide]
  rw [show u32cast (((0 : Nat) : Int) + 0) = 0 from by
    simp only [u32cast]
    decide]
  rw [getPixel, if_pos (by decide)]
  dsimp only
  rw [show srgbSpace.toRgb (addV (srgbSpace.fromRgb (cxImg.pix 0 0).r (cxImg.pix 0 0).g
      (cxImg.pix 0 0).b) (mulV ((1 : ℚ), (1 : ℚ), (1 : ℚ)) (4 / 42))) = (24, 24, 24) from by
    show srgbSpace.toRgb (addV (srgbSpace.fromRgb 0 0 0)
      (mulV ((1 : ℚ), (1 : ℚ), (1 : ℚ)) (4 / 42))) = (24, 24, 24)
    norm_num [srgbSpace, addV, mulV, qToByte]
    decide]
  rw [setRgb]
  rfl

/-- Witness for the amended C2 at concrete inputs: a negative offset from
column 0 is dropped, and a `+2` offset beyond the right edge of the
2-by-2 test raster is dropped by the bounds-checked lookup. -/
theorem c2_witness :
    diffuseError srgbSpace testImg ((1 : ℚ), (1 : ℚ), (1 : ℚ)) 0 0 (-1) 1 (3 / 16) = testImg ∧
    diffuseError srgbSpace testImg ((1 : ℚ), (1 : ℚ), (1 : ℚ)) 1 0 2 0 (4 / 42) = testImg := by
  have h := c2_amended_boundary srgbSpace manhattanQ testPal testImg (by decide)
  exact ⟨h.2.1 _ 0 0 (-1) 1 _ (Or.inl ⟨rfl, by norm_num⟩),
    h.2.2 _ 1 0 2 0 _ (by decide) (by decide) (by decide) (by decide) (by norm_num)
      (by norm_num) (by norm_num) (by norm_num) (Or.inr (Or.inl (by decide)))⟩

/-! The Random algorithm consumes the generator stream in raster order. -/

theorem rngAdvance_succ {S : Type} (draw : S → ℚ × S) (s : S) (n : Nat) :
    rngAdvance draw s (n + 1) = (draw (rngAdvance draw s n)).2 := by
  rw [rngAdvance, rngAdvance, Function.iterate_succ_apply']

/-- The state pairing that relates the spec-level pixel counter to the
code-level generator state: after `k` pixels the generator has been
advanced `3 * k` times. -/
def relState {S : Type} (draw : S → ℚ × S) (s0 : S) (st : Raster × Nat) : Raster × S :=
  (st.1, rngAdvance draw s0 (3 * st.2))

theorem randStep_code_eq_spec {F S : Type} [LinearOrder F] (cs : ColorSpaceModel)
    (diff : V3 → V3 → F) (pal : Palette V3) (draw : S → ℚ × S) (s0 : S)
    (st : Raster × Nat) (x y : Nat) :
    randStep cs diff pal draw (relState draw s0 st) x y =
      (randSpecStep cs diff pal draw s0 st x y).map (relState draw s0) := by
  rw [randStep, randSpecStep]
  dsimp only [relState]
  simp only [nthOffset]
  rw [show (draw (rngAdvance draw s0 (3 * st.2))).2 = rngAdvance draw s0 (3 * st.2 + 1) from
    (rngAdvance_succ draw s0 (3 * st.2)).symm]
  rw [show (draw (rngAdvance draw s0 (3 * st.2 + 1))).2 = rngAdvance draw s0 (3 * st.2 + 2) from
    (rngAdvance_succ draw s0 (3 * st.2 + 1)).symm]
  rw [show (draw (rngAdvance draw s0 (3 * st.2 + 2))).2 = rngAdvance draw s0 (3 * st.2 + 3) from
    (rngAdvance_succ draw s0 (3 * st.2 + 2)).symm]
  cases hc : Palette.nearest diff pal
      (addChan (addChan (addChan
        (cs.fromRgb (st.1.pix x y).r (st.1.pix x y).g (st.1.pix x y).b)
        0 (draw (rngAdvance draw s0 (3 * st.2))).1)
        1 (draw (rngAdvance draw s0 (3 * st.2 + 1))).1)
        2 (draw (rngAdvance draw s0 (3 * st.2 + 2))).1) with
  | none => rfl
  | some c =>
    simp only [Option.map_some', relState]
    rw [show 3 * (st.2 + 1) = 3 * st.2 + 3 from by ring]

/-- Claim C7: the Random algorithm equals its spec-level description — a
single generator seeded with the fixed constant 0 at the start of the run
and advanced exactly once per pixel per channel in raster order (pixel
`k` consumes stream positions `3k`, `3k + 1`, `3k + 2`, added to the three
working-space channels before the nearest lookup).  The run is a pure
function of the raster, palette, space, metric and generator algorithm,
so repeated executions are byte-identical. -/
theorem c7_random_fixed_seed_stream {F S : Type} [LinearOrder F] (cs : ColorSpaceModel)
    (diff : V3 → V3 → F) (pal : Palette V3) (rng : RngModel S) (img : Raster) :
    runRandom cs diff pal rng img = runRandomSpec cs diff pal rng img := by
  rw [runRandom, runRandomSpec]
  have h0 : (img, rng.seedFrom 0) = relState rng.draw (rng.seedFrom 0) (img, 0) := rfl
  rw [h0]
  rw [optFold_map_rel (relState rng.draw (rng.seedFrom 0)) _ _ (List.range img.height) ?_
    (img, 0)]
  · cases optFold (fun st y => optFold
      (fun st2 x => randSpecStep cs diff pal rng.draw (rng.seedFrom 0) st2 x y) st
      (List.range st.1.width)) (img, 0) (List.range img.height) with
    | none => rfl
    | some st => rfl
  · intro c y hy
    exact optFold_map_rel (relState rng.draw (rng.seedFrom 0)) _ _
      (List.range c.1.width)
      (fun c2 x hx => randStep_code_eq_spec cs diff pal rng.draw (rng.seedFrom 0) c2 x y) c

end Mark
